import Mathlib

/-!
Verification of the gitstring changelog pipeline: commit classification
(`groupCommitsByType`), the Markdown renderer (`formatAsMarkdown`), the
provider adapters (`fetchGitHubCommits` enrichment, `compareCommits`), the
changelog-generation route, and the cache layer (`generateCacheKey`,
`invalidate`).  Strings are modelled as lists of characters; JavaScript
`toLowerCase` is modelled per-character; the regular expressions of the
classifier and renderer are embedded as explicit backtracking matchers for
the two fixed patterns the source uses.
-/

/-- JavaScript strings, modelled as lists of characters. -/
abbrev Str := List Char

/-- `\w` of JavaScript regular expressions: `[A-Za-z0-9_]`. -/
def isWordChar (c : Char) : Bool :=
  ('a' ≤ c && c ≤ 'z') || ('A' ≤ c && c ≤ 'Z') || ('0' ≤ c && c ≤ '9') || c == '_'

/-- JavaScript line terminators, the characters `.` does not match. -/
def isLineTerm (c : Char) : Bool :=
  c == '\n' || c == '\r' || c == ' ' || c == ' '

/-- `\s` of JavaScript regular expressions (WhiteSpace ∪ LineTerminator). -/
def isJsSpace (c : Char) : Bool :=
  c == ' ' || c == '\t' || c == '\n' || c == '\x0b' || c == '\x0c' || c == '\r' ||
  c == ' ' || c == ' ' || (' ' ≤ c && c ≤ ' ') ||
  c == ' ' || c == ' ' || c == ' ' || c == ' ' ||
  c == '　' || c == '﻿'

/-- `message.toLowerCase()`, modelled per character. -/
def lowerStr (s : Str) : Str := s.map Char.toLower

/-- `s.includes(pat)`: substring containment. -/
def hasSubstr (pat : Str) : Str → Bool
  | [] => pat.isEmpty
  | c :: rest => pat.isPrefixOf (c :: rest) || hasSubstr pat rest

/-- `Array.prototype.join(sep)`. -/
def joinSep (sep : Str) : List Str → Str
  | [] => []
  | [x] => x
  | x :: y :: rest => x ++ sep ++ joinSep sep (y :: rest)

/-- Concatenation of string pieces. -/
def strJoin (L : List Str) : Str := L.foldr (· ++ ·) []

/- ## Data model (src/lib/types.ts) -/

/-- `GitCommit.author`. -/
structure Author where
  name : Str
  email : Str
  date : Str
deriving DecidableEq

/-- `FileChange`: per-file diff entry produced by the adapters. -/
structure FileChange where
  filename : Str
  status : Str
  additions : Nat
  deletions : Nat
  changes : Nat
  patch : Option Str
  previous_filename : Option Str
deriving DecidableEq

/-- Aggregate `stats` attached to a commit by the adapters. -/
structure CommitStats where
  additions : Nat
  deletions : Nat
  total : Nat
deriving DecidableEq

/-- `GitCommit`: the normalized commit record. -/
structure GitCommit where
  sha : Str
  message : Str
  author : Author
  url : Str
  stats : Option CommitStats
  files : Option (List FileChange)
deriving DecidableEq

/-- `CommitGroup`: one classification bucket. -/
structure CommitGroup where
  category : Str
  commits : List GitCommit
deriving DecidableEq

/- ## Commit classifier (src/unnamed/part_014, `groupCommitsByType`) -/

/-- The twelve bucket names of the `groups` record. -/
inductive CommitCategory where
  | features | fixes | breaking | performance | docs | style
  | refactor | test | build | ci | chore | other
deriving DecidableEq

/-- `\s*(.+)` succeeds on `r` iff some character of `r` is not a line
terminator: `\s*` may consume any whitespace prefix (line terminators are
whitespace) and `.` then needs one non-terminator character. -/
def dotTailOk (r : Str) : Bool := r.any (fun c => !isLineTerm c)

/-- `!?:\s*(.+)` matches at the start of `r`. -/
def bangColonDotTail : Str → Bool
  | '!' :: ':' :: r2 => dotTailOk r2
  | ':' :: r2 => dotTailOk r2
  | _ => false

/-- After `(` and at least one scope character: scan for a `)` whose
continuation `!?:\s*(.+)` matches; scope characters must be non-terminators. -/
def scopeScanDot : Str → Bool
  | [] => false
  | c :: rest =>
    (c == ')' && bangColonDotTail rest) || (!isLineTerm c && scopeScanDot rest)

/-- `\(.+?\)!?:\s*(.+)` matches at the start of `'(' :: s`. -/
def scopeBodyDot : Str → Bool
  | [] => false
  | c :: rest => !isLineTerm c && scopeScanDot rest

/-- `(\(.+?\))?!?:\s*(.+)` matches at the start of `rest`. -/
def convTailDot (rest : Str) : Bool :=
  (match rest with
   | '(' :: s => scopeBodyDot s
   | _ => false) || bangColonDotTail rest

/-- The match of `/^(\w+)(\(.+?\))?!?:\s*(.+)/` against `message`:
`some type` (capture group 1) when the pattern matches, else `none`.
In any successful match group 1 is the maximal leading `\w` run, since the
character after it must be `(`, `!` or `:`. -/
def convMatch (message : Str) : Option Str :=
  let w := message.takeWhile isWordChar
  if w.isEmpty then none
  else if convTailDot (message.drop w.length) then some w else none

/-- The `categoryMap` record: conventional type token to bucket. -/
def categoryMap (t : Str) : Option CommitCategory :=
  if t == "feat".data then some .features
  else if t == "fix".data then some .fixes
  else if t == "breaking".data then some .breaking
  else if t == "perf".data then some .performance
  else if t == "docs".data then some .docs
  else if t == "style".data then some .style
  else if t == "refactor".data then some .refactor
  else if t == "test".data then some .test
  else if t == "build".data then some .build
  else if t == "ci".data then some .ci
  else if t == "chore".data then some .chore
  else none

/-- The breaking-change test of the classifier, applied to the lower-cased
message: `message.includes('breaking change') || message.includes('!:')`. -/
def isBreakingMsg (message : Str) : Bool :=
  hasSubstr "breaking change".data message || hasSubstr "!:".data message

/-- The per-commit classification of `groupCommitsByType`: breaking check
first; otherwise the conventional-commit pattern routed through
`categoryMap`; otherwise `other`. -/
def classifyMessage (message : Str) : CommitCategory :=
  if isBreakingMsg message then .breaking
  else
    match convMatch message with
    | some t =>
      match categoryMap t with
      | some c => c
      | none => .other
    | none => .other

/-- Classification of one commit record (the classifier lower-cases the
message first). -/
def classifyOf (cm : GitCommit) : CommitCategory :=
  classifyMessage (lowerStr cm.message)

/-- Insertion order of the keys of the `groups` object literal, which is
the iteration order of `Object.entries(groups)`. -/
def groupsOrder : List CommitCategory :=
  [.features, .fixes, .breaking, .performance, .docs, .style,
   .refactor, .test, .build, .ci, .chore, .other]

/-- The `categoryLabels` record. -/
def categoryLabels : CommitCategory → Str
  | .breaking => "🚨 Breaking Changes".data
  | .features => "✨ Features".data
  | .fixes => "🐛 Bug Fixes".data
  | .performance => "⚡ Performance".data
  | .docs => "📝 Documentation".data
  | .style => "💄 Styling".data
  | .refactor => "♻️ Refactoring".data
  | .test => "✅ Tests".data
  | .build => "📦 Build".data
  | .ci => "👷 CI/CD".data
  | .chore => "🔧 Chores".data
  | .other => "📌 Other Changes".data

/-- The contents of one bucket after the `forEach` push loop: the input
commits whose classification is `c`, in input order. -/
def bucketOf (commits : List GitCommit) (c : CommitCategory) : List GitCommit :=
  commits.filter (fun cm => decide (classifyOf cm = c))

/-- `groupCommitsByType`: fill the fixed buckets, then emit the non-empty
ones in the iteration order of the `groups` object. -/
def groupCommitsByType (commits : List GitCommit) : List CommitGroup :=
  groupsOrder.filterMap (fun c =>
    let b := bucketOf commits c
    if b.isEmpty then none else some ⟨categoryLabels c, b⟩)

/-- Modelled from the spec's words only (for comparison with the code):
the emission order the spec asserts, "breaking, features, fixes,
performance, docs, style, refactor, test, build, ci, chore, other". -/
def specClaimedOrder : List CommitCategory :=
  [.breaking, .features, .fixes, .performance, .docs, .style,
   .refactor, .test, .build, .ci, .chore, .other]

/-- Modelled from the spec's words only: the category sequence the spec
says `groupCommitsByType` emits (the claimed order, skipping empties). -/
def specClaimedCategories (commits : List GitCommit) : List Str :=
  (specClaimedOrder.filter (fun c => !(bucketOf commits c).isEmpty)).map categoryLabels

/- ## Markdown renderer (src/unnamed/part_014, `formatAsMarkdown`) -/

/-- The match length of `!?:\s*` at the start of `r` (`!?` preferring the
bang, `\s*` greedy), `none` when `!?:` does not match. -/
def bangColonLen : Str → Option Nat
  | '!' :: ':' :: r2 => some (2 + (r2.takeWhile isJsSpace).length)
  | ':' :: r2 => some (1 + (r2.takeWhile isJsSpace).length)
  | _ => none

/-- Lazy scan for the scope's closing `)` of `\(.+?\)!?:\s*`: at each
position, close first if the continuation matches, else extend the scope
content (content characters must be non-terminators).  Returns the length
consumed from here on. -/
def scopeScanLen : Str → Option Nat
  | [] => none
  | c :: rest =>
    if c == ')' then
      match bangColonLen rest with
      | some m => some (1 + m)
      | none => (scopeScanLen rest).map (· + 1)
    else if isLineTerm c then none
    else (scopeScanLen rest).map (· + 1)

/-- The match length of `\(.+?\)!?:\s*` at the start of `rest`. -/
def scopeTotalLen (rest : Str) : Option Nat :=
  match rest with
  | '(' :: c :: s3 => if isLineTerm c then none else (scopeScanLen s3).map (2 + ·)
  | _ => none

/-- The match length of `/^(\w+)(\(.+?\))?!?:\s*/` against `s` (`none`
when it does not match): maximal `\w` run, then the scope alternative is
preferred over its absence. -/
def convMarkerLen (s : Str) : Option Nat :=
  let w := s.takeWhile isWordChar
  if w.isEmpty then none
  else
    match scopeTotalLen (s.drop w.length), bangColonLen (s.drop w.length) with
    | some m, _ => some (w.length + m)
    | none, some m => some (w.length + m)
    | none, none => none

/-- `message.replace(/^(\w+)(\(.+?\))?!?:\s*/, '')`. -/
def removeConvMarker (s : Str) : Str :=
  match convMarkerLen s with
  | some n => s.drop n
  | none => s

/-- JavaScript truthiness of an optional string: defined and non-empty. -/
def truthy : Option Str → Bool
  | none => false
  | some s => !s.isEmpty

/-- Decimal rendering of a number interpolated into a template literal. -/
def natStr (n : Nat) : Str := (Nat.repr n).data

/-- The `statusBadge` conditional chain. -/
def statusBadge (status : Str) : Str :=
  if status == "added".data then "🟢".data
  else if status == "modified".data then "🔵".data
  else if status == "removed".data then "🔴".data
  else if status == "renamed".data then "🟡".data
  else "⚪".data

/-- The `changeStats` string: present when `file.additions || file.deletions`
is truthy (a count of zero is falsy). -/
def changeStatsStr (file : FileChange) : Str :=
  if file.additions != 0 || file.deletions != 0 then
    " (+".data ++ natStr file.additions ++ "/-".data ++ natStr file.deletions ++ ")".data
  else []

/-- The two (or three) Markdown lines for one changed file. -/
def fileLines (file : FileChange) : Str :=
  "    - ".data ++ statusBadge file.status ++ " `".data ++ file.filename ++ "`".data
    ++ changeStatsStr file ++ "\n".data
  ++ (match file.previous_filename with
      | some p =>
        if !p.isEmpty && file.status == "renamed".data then
          "      - _Renamed from `".data ++ p ++ "`_\n".data
        else []
      | none => [])

/-- The Markdown lines for one commit: bullet with cleaned first line,
short sha link, author line, and the file list when present and non-empty. -/
def commitLines (commit : GitCommit) : Str :=
  let shortSha := commit.sha.take 7
  let message := commit.message.takeWhile (fun c => c != '\n')
  let cleanMessage := removeConvMarker message
  "- **".data ++ cleanMessage ++ "** ([".data ++ shortSha ++ "](".data
    ++ commit.url ++ "))\n".data
  ++ "  - _by ".data ++ commit.author.name ++ "_\n".data
  ++ (match commit.files with
      | some files =>
        if files.length > 0 then
          "  - **Files changed:** ".data ++ natStr files.length ++ "\n".data
            ++ strJoin (files.map fileLines)
        else []
      | none => [])

/-- `formatAsMarkdown`, with the generation date (the value of
`new Date().toISOString().split('T')[0]`) made an explicit input. -/
def formatAsMarkdown (groups : List CommitGroup) (repoName : Str)
    (startRef endRef : Option Str) (date : Str) : Str :=
  "# Changelog\n\n".data ++ "**Repository:** ".data ++ repoName ++ "\n".data
  ++ (if truthy startRef && truthy endRef then
        "**Range:** ".data ++ startRef.getD [] ++ " → ".data ++ endRef.getD [] ++ "\n".data
      else [])
  ++ "**Generated:** ".data ++ date ++ "\n\n".data ++ "---\n\n".data
  ++ strJoin (groups.map (fun group =>
       "## ".data ++ group.category ++ "\n\n".data
       ++ strJoin (group.commits.map commitLines) ++ "\n".data))

/- ## Provider adapters (src/unnamed/part_016, src/lib/gitApi.ts) -/

/-- The GitHub list-commit payload shape used by `fetchGitHubCommits`. -/
structure GitHubCommitData where
  message : Str
  author : Author
deriving DecidableEq

/-- A raw GitHub commit from the primary list/compare call. -/
structure GitHubCommit where
  sha : Str
  commit : GitHubCommitData
  html_url : Str
deriving DecidableEq

/-- A raw file entry of the GitHub commit-detail payload (fields may be
absent, defaulted with `|| 0` by the adapter). -/
structure RawGitHubFile where
  filename : Str
  status : Str
  additions : Option Nat
  deletions : Option Nat
  changes : Option Nat
  patch : Option Str
  previous_filename : Option Str
deriving DecidableEq

/-- The optional `stats` object of the GitHub commit-detail payload. -/
structure RawGitHubStats where
  additions : Option Nat
  deletions : Option Nat
  total : Option Nat
deriving DecidableEq

/-- The GitHub commit-detail payload. -/
structure GitHubDetailData where
  files : Option (List RawGitHubFile)
  stats : Option RawGitHubStats
deriving DecidableEq

/-- An HTTP response for the detail call: its `ok` flag and parsed body. -/
structure DetailHttpResp where
  ok : Bool
  data : GitHubDetailData
deriving DecidableEq

/-- The result shape of `fetchGitHubCommitDetails`. -/
structure DetailResult where
  files : List FileChange
  stats : CommitStats
deriving DecidableEq

/-- The degraded detail value: empty `files`, zero `stats`. -/
def emptyDetail : DetailResult := ⟨[], ⟨0, 0, 0⟩⟩

/-- The `data.files.map(...)` entry mapping of `fetchGitHubCommitDetails`. -/
def mapRawFile (file : RawGitHubFile) : FileChange :=
  { filename := file.filename
    status := file.status
    additions := file.additions.getD 0
    deletions := file.deletions.getD 0
    changes := file.changes.getD 0
    patch := file.patch
    previous_filename := file.previous_filename }

/-- `fetchGitHubCommitDetails`, over the detail call's outcome: a network
error propagates; a non-2xx response yields the empty detail; a 2xx
response is mapped field by field with `|| 0` defaults. -/
def fetchGitHubCommitDetails (resp : Except Unit DetailHttpResp) :
    Except Unit DetailResult :=
  match resp with
  | .error e => .error e
  | .ok r =>
    if !r.ok then .ok emptyDetail
    else
      .ok { files := (r.data.files.getD []).map mapRawFile
            stats := { additions := ((r.data.stats.map (·.additions)).join).getD 0
                       deletions := ((r.data.stats.map (·.deletions)).join).getD 0
                       total := ((r.data.stats.map (·.total)).join).getD 0 } }

/-- The body of the enrichment loop of `fetchGitHubCommits` for one
commit: the detail oracle gives the sha's detail-call outcome; a thrown
detail error is caught (`console.warn`) and degrades this record to the
empty detail. -/
def enrichGitHubCommit (oracle : Str → Except Unit DetailHttpResp)
    (includeDetails : Bool) (commit : GitHubCommit) : GitCommit :=
  let details :=
    if includeDetails then
      match fetchGitHubCommitDetails (oracle commit.sha) with
      | .ok d => d
      | .error _ => emptyDetail
    else emptyDetail
  { sha := commit.sha
    message := commit.commit.message
    author := commit.commit.author
    url := commit.html_url
    stats := some details.stats
    files := some details.files }

/-- The enrichment loop of `fetchGitHubCommits` (the `Promise.all` over
`commits.map`). -/
def enrichGitHubCommits (oracle : Str → Except Unit DetailHttpResp)
    (includeDetails : Bool) (commits : List GitHubCommit) : List GitCommit :=
  commits.map (enrichGitHubCommit oracle includeDetails)

/-- A detail call failed: either the fetch threw, or the response was
non-2xx. -/
def detailFailed : Except Unit DetailHttpResp → Bool
  | .error _ => true
  | .ok r => !r.ok

/-- The primary HTTP request a provider call issues. -/
inductive ApiRequest where
  | githubCompare (owner repo base head : Str)
  | githubListCommits (owner repo : Str) (shaParam : Option Str)
  | gitlabListCommits (projectId : Str) (refName since untilRef : Option Str)
deriving DecidableEq

/-- The URL/parameter selection of `fetchGitHubCommits`: with both `base`
and `head` truthy it requests `compare/{base}...{head}`; otherwise the
commit list, with `sha = head || 'HEAD'` appended when `base` is truthy. -/
def gitHubPrimaryRequest (owner repo : Str) (base head : Option Str) : ApiRequest :=
  if truthy base && truthy head then
    .githubCompare owner repo (base.getD []) (head.getD [])
  else
    .githubListCommits owner repo
      (if truthy base then some (if truthy head then head.getD [] else "HEAD".data) else none)

/-- The parameter selection of `fetchGitLabCommits`: each of `ref_name`,
`since`, `until` is appended only when truthy. -/
def gitLabPrimaryRequest (projectId : Str) (refName since untilRef : Option Str) : ApiRequest :=
  .gitlabListCommits projectId
    (if truthy refName then refName else none)
    (if truthy since then since else none)
    (if truthy untilRef then untilRef else none)

/-- The discriminated repository identifier of `compareCommits`. -/
inductive RepoIdentifier where
  | ghRepo (owner repo : Str)
  | glProject (projectId : Str)
deriving DecidableEq

/-- The provider discriminant. -/
inductive Provider where
  | github | gitlab
deriving DecidableEq

/-- `compareCommits` as the primary request it issues: GitHub delegates to
`fetchGitHubCommits(token, owner, repo, base, head)`; GitLab delegates to
`fetchGitLabCommits(token, projectId, head)` (no compare endpoint used);
a mismatched provider/identifier pair throws (`none`). -/
def compareCommitsRequest (provider : Provider) (_token : Str)
    (repoIdentifier : RepoIdentifier) (base head : Str) : Option ApiRequest :=
  match provider, repoIdentifier with
  | .github, .ghRepo owner repo => some (gitHubPrimaryRequest owner repo (some base) (some head))
  | .gitlab, .glProject projectId => some (gitLabPrimaryRequest projectId (some head) none none)
  | _, _ => none

/- ## Changelog-generation route (src/app/api/changelog/generate/route.ts) -/

/-- The HTTP response the route produces: status and the `error` body field
(`none` for the success payload). -/
structure RouteResponse where
  status : Nat
  error : Option Str
deriving DecidableEq

/-- The environment a POST request runs against: each external collaborator
outcome the route branches on, in the order the code consults them.  The
commit fetch is `Except`: a thrown provider/network error lands in the
route's outer catch. -/
structure RouteEnv where
  rateLimited : Bool
  authed : Bool
  repoFound : Bool
  providerSupported : Bool
  tokenFound : Bool
  fetchResult : Except Unit (List GitCommit)
  insertOk : Bool

/-- The branch structure of the route's `POST`: rate limit, auth, repo
lookup, token, provider dispatch, the empty-commits check at lines 90–92,
then save. -/
def changelogGeneratePost (env : RouteEnv) : RouteResponse :=
  if env.rateLimited then ⟨429, some "Too many requests".data⟩
  else if !env.authed then ⟨401, some "Unauthorized".data⟩
  else if !env.repoFound then ⟨404, some "Repository not found".data⟩
  else if !env.tokenFound then
    ⟨401, some "Access token not found. Please reconnect your repository.".data⟩
  else if !env.providerSupported then ⟨400, some "Unsupported provider".data⟩
  else
    match env.fetchResult with
    | .error _ => ⟨500, some "Failed to generate changelog".data⟩
    | .ok commits =>
      if commits.isEmpty then ⟨404, some "No commits found".data⟩
      else if !env.insertOk then ⟨500, some "Failed to save changelog".data⟩
      else ⟨200, none⟩

/- ## Cache layer (src/lib/cache.ts) -/

/-- The default `Array.prototype.sort` comparison on strings: sequence
order on the character values. -/
def strLe : Str → Str → Bool
  | [], _ => true
  | _ :: _, [] => false
  | a :: as, b :: bs =>
    if a.toNat < b.toNat then true
    else if b.toNat < a.toNat then false
    else strLe as bs

/-- `strLe` as a relation, for sorting. -/
def strLeP (a b : Str) : Prop := strLe a b = true

instance : DecidableRel strLeP := fun a b => inferInstanceAs (Decidable (_ = true))

/-- `generateCacheKey(prefix, params)`: sort the field names, render each
as `name:value`, join with `|`, and prepend `prefix:`.  A parameter object
is an association list with distinct field names, in insertion order. -/
def generateCacheKey (pre : Str) (params : List (Str × Str)) : Str :=
  let sortedParams :=
    joinSep "|".data
      (((params.map Prod.fst).insertionSort strLeP).map
        (fun key => key ++ ":".data ++ ((params.lookup key).getD [])))
  pre ++ ":".data ++ sortedParams

/-- Template-literal rendering of a possibly-`undefined` string value. -/
def encodeVal : Option Str → Str
  | some s => s
  | none => "undefined".data

/-- The key `CommitCache` builds for `{ repoId, fromRef, toRef }`. -/
def commitCacheKey (repoId : Str) (fromRef toRef : Option Str) : Str :=
  generateCacheKey "commits".data
    [("repoId".data, repoId), ("fromRef".data, encodeVal fromRef),
     ("toRef".data, encodeVal toRef)]

/-- The shared deletion loop of the `invalidate` operations: collect every
key containing `frag` and delete it, i.e. keep exactly the entries whose
key does not contain `frag`. -/
def invalidateByFragment {V : Type} (frag : Str) (cache : List (Str × V)) :
    List (Str × V) :=
  cache.filter (fun e => !hasSubstr frag e.1)

/-- `CommitCache.invalidate(repoId)`. -/
def commitCacheInvalidate {V : Type} (repoId : Str) (cache : List (Str × V)) :
    List (Str × V) :=
  invalidateByFragment ("repoId:".data ++ repoId) cache

/-- `RepoCache.invalidate(userId)` with no provider given. -/
def repoCacheInvalidateAll {V : Type} (userId : Str) (cache : List (Str × V)) :
    List (Str × V) :=
  invalidateByFragment ("userId:".data ++ userId) cache

/- ## Helper lemmas: classifier -/

/-- The emission step of `groupCommitsByType` in a simp-normal form. -/
def emitIf (commits : List GitCommit) (c : CommitCategory) : Option CommitGroup :=
  if bucketOf commits c = [] then none
  else some ⟨categoryLabels c, bucketOf commits c⟩

/-- `groupCommitsByType` is the emission loop over the fixed order. -/
theorem groupCommitsByType_eq_emit (commits : List GitCommit) :
    groupCommitsByType commits = groupsOrder.filterMap (emitIf commits) := by
  unfold groupCommitsByType emitIf
  congr 1
  funext c
  by_cases h : bucketOf commits c = [] <;> simp [h]

/-- The emission loop maps categories to labels in loop order, skipping
empty buckets. -/
theorem emit_map_category (order : List CommitCategory) (commits : List GitCommit) :
    ((order.filterMap (emitIf commits)).map (fun g => g.category))
    = (order.filter (fun c => !decide (bucketOf commits c = []))).map categoryLabels := by
  induction order with
  | nil => rfl
  | cons c cs ih =>
    by_cases h : bucketOf commits c = [] <;>
      simp [emitIf, List.filterMap_cons, List.filter_cons, h, ih]

/-- Membership characterisation of the emitted groups. -/
theorem mem_groupCommitsByType {commits : List GitCommit} {g : CommitGroup} :
    g ∈ groupCommitsByType commits ↔
      ∃ c ∈ groupsOrder, bucketOf commits c ≠ [] ∧
        g = ⟨categoryLabels c, bucketOf commits c⟩ := by
  rw [groupCommitsByType_eq_emit, List.mem_filterMap]
  constructor
  · rintro ⟨c, hc, hfc⟩
    unfold emitIf at hfc
    by_cases h : bucketOf commits c = [] <;> simp [h] at hfc
    exact ⟨c, hc, h, hfc.symm⟩
  · rintro ⟨c, hc, hne, hg⟩
    exact ⟨c, hc, by simp [emitIf, hne, hg]⟩

/-- Buckets of permuted inputs are permutations of each other. -/
theorem bucketOf_perm {commits commits' : List GitCommit}
    (h : commits.Perm commits') (c : CommitCategory) :
    (bucketOf commits c).Perm (bucketOf commits' c) :=
  h.filter _

/-- Emptiness of a bucket is invariant under input permutation. -/
theorem bucketOf_isEmpty_perm {commits commits' : List GitCommit}
    (h : commits.Perm commits') (c : CommitCategory) :
    (bucketOf commits c).isEmpty = (bucketOf commits' c).isEmpty := by
  have hl := (bucketOf_perm h c).length_eq
  cases e1 : bucketOf commits c <;> cases e2 : bucketOf commits' c <;>
    simp_all

/-- Occurrence count inside one bucket. -/
theorem count_bucketOf (a : GitCommit) (commits : List GitCommit) (c : CommitCategory) :
    List.count a (bucketOf commits c)
      = if classifyOf a = c then List.count a commits else 0 := by
  by_cases h : classifyOf a = c
  · rw [if_pos h]
    exact List.count_filter (by simp [h])
  · rw [if_neg h]
    rw [List.count_eq_zero]
    intro hmem
    exact h (by simpa using (List.mem_filter.mp hmem).2)

/-- Occurrence count in a concatenation of lists. -/
theorem count_flat (a : GitCommit) :
    ∀ L : List (List GitCommit),
      List.count a L.flatten = (L.map (List.count a)).sum := by
  intro L
  induction L with
  | nil => rfl
  | cons x xs ih => simp [List.flatten_cons, List.count_append, ih]

/-- Dropping empty buckets does not change the concatenation of the
emitted groups' commits. -/
theorem flatten_emit (order : List CommitCategory) (commits : List GitCommit) :
    ((order.filterMap (emitIf commits)).map (fun g => g.commits)).flatten
    = (order.map (bucketOf commits)).flatten := by
  induction order with
  | nil => rfl
  | cons c cs ih =>
    by_cases h : bucketOf commits c = [] <;>
      simp [emitIf, List.filterMap_cons, h, ih]

/-- The twelve buckets concatenated in loop order are a permutation of the
input. -/
theorem flatten_buckets_perm (commits : List GitCommit) :
    ((groupsOrder.map (bucketOf commits)).flatten).Perm commits := by
  rw [List.perm_iff_count]
  intro a
  rw [count_flat]
  show ((groupsOrder.map (bucketOf commits)).map (List.count a)).sum = _
  rw [List.map_map]
  cases hc : classifyOf a <;>
    simp [groupsOrder, Function.comp, count_bucketOf, hc]

/-- Example commit: a plain conventional feature commit. -/
def featCommitEx : GitCommit :=
  { sha := "1111111aaaaaaa".data, message := "feat: add login".data
    author := ⟨"Alice".data, "alice@example.com".data, "2024-01-02".data⟩
    url := "https://example.com/c/1".data, stats := none, files := none }

/-- Example commit: carries the `!:` breaking-change marker and a `fix:`
type prefix. -/
def breakCommitEx : GitCommit :=
  { sha := "2222222bbbbbbb".data, message := "fix!: drop old api".data
    author := ⟨"Bob".data, "bob@example.com".data, "2024-01-03".data⟩
    url := "https://example.com/c/2".data, stats := none, files := none }

/- ## C1: emitted group order -/

/-- C1 (counterexample): on a feature commit plus a breaking commit, the
code emits "✨ Features" before "🚨 Breaking Changes"; the spec's claimed
order (breaking first) does not match, because `Object.entries(groups)`
iterates the `groups` object in insertion order, which lists `features`
and `fixes` before `breaking`. -/
theorem groupCommitsByType_spec_order_refuted :
    ¬ ((groupCommitsByType [featCommitEx, breakCommitEx]).map (fun g => g.category)
        = specClaimedCategories [featCommitEx, breakCommitEx]) := by
  decide

/-- C1 (amended): the emitted category sequence is the fixed insertion
order of the `groups` object — features, fixes, breaking, performance,
docs, style, refactor, test, build, ci, chore, other — restricted to
non-empty buckets, and it is invariant under permutation of the input
commits. -/
theorem groupCommitsByType_order (commits commits' : List GitCommit)
    (h : commits.Perm commits') :
    (groupCommitsByType commits).map (fun g => g.category)
      = (groupsOrder.filter
          (fun c => !decide (bucketOf commits c = []))).map categoryLabels
    ∧ (groupCommitsByType commits).map (fun g => g.category)
      = (groupCommitsByType commits').map (fun g => g.category) := by
  refine ⟨by rw [groupCommitsByType_eq_emit]; exact emit_map_category _ _, ?_⟩
  rw [groupCommitsByType_eq_emit commits, groupCommitsByType_eq_emit commits',
    emit_map_category, emit_map_category]
  congr 1
  apply List.filter_congr
  intro c _
  have hiff : bucketOf commits c = [] ↔ bucketOf commits' c = [] := by
    constructor
    · intro e
      have hp := bucketOf_perm h c
      rw [e] at hp
      exact hp.symm.eq_nil
    · intro e
      have hp := bucketOf_perm h c
      rw [e] at hp
      exact hp.eq_nil
  rw [decide_eq_decide.mpr hiff]

/-- C1 witness: the amended theorem applied to a concrete permuted pair. -/
theorem groupCommitsByType_order_witness :
    ([featCommitEx, breakCommitEx] : List GitCommit).Perm [breakCommitEx, featCommitEx]
    ∧ ((groupCommitsByType [featCommitEx, breakCommitEx]).map (fun g => g.category)
        = (groupsOrder.filter
            (fun c => !decide (bucketOf [featCommitEx, breakCommitEx] c = []))).map
            categoryLabels
      ∧ (groupCommitsByType [featCommitEx, breakCommitEx]).map (fun g => g.category)
        = (groupCommitsByType [breakCommitEx, featCommitEx]).map (fun g => g.category)) :=
  ⟨by decide, groupCommitsByType_order _ _ (by decide)⟩

/- ## C2: partition -/

/-- C2: the emitted groups' commit lists concatenate to a permutation of
the input (every record exactly once, none lost, none duplicated), and no
emitted group is empty. -/
theorem groupCommitsByType_partition (commits : List GitCommit) :
    (((groupCommitsByType commits).map (fun g => g.commits)).flatten).Perm commits
    ∧ ∀ g ∈ groupCommitsByType commits, g.commits ≠ [] := by
  constructor
  · rw [groupCommitsByType_eq_emit, flatten_emit]
    exact flatten_buckets_perm commits
  · intro g hg
    rcases mem_groupCommitsByType.mp hg with ⟨c, _, hne, rfl⟩
    exact hne

/- ## C3: breaking-change priority -/

/-- C3: a commit whose lower-cased message contains "breaking change" or
"!:" lands in the breaking-changes group and in no other group. -/
theorem breaking_commit_only_in_breaking (commits : List GitCommit) (cm : GitCommit)
    (hmem : cm ∈ commits) (hbrk : isBreakingMsg (lowerStr cm.message) = true) :
    (∃ g ∈ groupCommitsByType commits,
        g.category = categoryLabels .breaking ∧ cm ∈ g.commits)
    ∧ ∀ g ∈ groupCommitsByType commits,
        g.category ≠ categoryLabels .breaking → cm ∉ g.commits := by
  have hcls : classifyOf cm = .breaking := by
    simp [classifyOf, classifyMessage, hbrk]
  have hmemB : cm ∈ bucketOf commits .breaking :=
    List.mem_filter.mpr ⟨hmem, by simp [hcls]⟩
  constructor
  · refine ⟨⟨categoryLabels .breaking, bucketOf commits .breaking⟩, ?_, rfl, hmemB⟩
    exact mem_groupCommitsByType.mpr
      ⟨.breaking, by simp [groupsOrder], List.ne_nil_of_mem hmemB, rfl⟩
  · intro g hg hcat hmemg
    rcases mem_groupCommitsByType.mp hg with ⟨c, _, _, rfl⟩
    have hc : classifyOf cm = c := by
      simpa using (List.mem_filter.mp hmemg).2
    exact hcat (by rw [show c = CommitCategory.breaking by rw [← hc, hcls]])

/- ## C4: non-fatal detail-fetch failure -/

/-- C4: enrichment returns one record per primary commit in primary order
(sha for sha); a failed detail call (thrown or non-2xx) degrades exactly
that record to empty `files` and zero `stats`; a successful detail call
keeps its mapped payload; the whole loop is the total function
`map`, so no detail failure escapes as an exception. -/
theorem enrichGitHubCommits_degrades (oracle : Str → Except Unit DetailHttpResp)
    (commits : List GitHubCommit) :
    (enrichGitHubCommits oracle true commits).map (fun r => r.sha)
      = commits.map (fun c => c.sha)
    ∧ (∀ commit : GitHubCommit, detailFailed (oracle commit.sha) = true →
        (enrichGitHubCommit oracle true commit).files = some []
        ∧ (enrichGitHubCommit oracle true commit).stats = some ⟨0, 0, 0⟩)
    ∧ (∀ commit : GitHubCommit, ∀ r : DetailHttpResp,
        oracle commit.sha = .ok r → r.ok = true →
        (enrichGitHubCommit oracle true commit).files
          = some ((r.data.files.getD []).map mapRawFile)
        ∧ (enrichGitHubCommit oracle true commit).stats
          = some ⟨((r.data.stats.map (fun s => s.additions)).join).getD 0,
                  ((r.data.stats.map (fun s => s.deletions)).join).getD 0,
                  ((r.data.stats.map (fun s => s.total)).join).getD 0⟩)
    ∧ enrichGitHubCommits oracle true commits
        = commits.map (enrichGitHubCommit oracle true) := by
  refine ⟨?_, ?_, ?_, rfl⟩
  · rw [enrichGitHubCommits, List.map_map]
    exact List.map_congr_left (fun c _ => rfl)
  · intro commit hfail
    cases o : oracle commit.sha with
    | error e =>
      constructor <;> simp [enrichGitHubCommit, o, fetchGitHubCommitDetails, emptyDetail]
    | ok r =>
      have hok : r.ok = false := by
        rw [o] at hfail
        simpa [detailFailed] using hfail
      constructor <;>
        simp [enrichGitHubCommit, o, fetchGitHubCommitDetails, hok, emptyDetail]
  · intro commit r ho hok
    constructor <;> simp [enrichGitHubCommit, ho, fetchGitHubCommitDetails, hok]

/-- Example raw GitHub commits for the enrichment witness. -/
def ghCommitEx1 : GitHubCommit :=
  ⟨"s1".data, ⟨"feat: one".data, ⟨"A".data, "a@x".data, "2024-01-01".data⟩⟩, "u1".data⟩

/-- A second raw commit whose detail call succeeds. -/
def ghCommitEx2 : GitHubCommit :=
  ⟨"s2".data, ⟨"fix: two".data, ⟨"B".data, "b@x".data, "2024-01-02".data⟩⟩, "u2".data⟩

/-- A detail oracle that throws for sha `s1` and succeeds otherwise. -/
def detailOracleEx : Str → Except Unit DetailHttpResp := fun sha =>
  if sha = "s1".data then .error ()
  else .ok ⟨true, ⟨some [⟨"f.ts".data, "added".data, some 3, some 1, some 4, none, none⟩],
                   some ⟨some 3, some 1, some 4⟩⟩⟩

/-- C4 witness: the degradation clause at the concrete failing commit. -/
theorem enrichGitHubCommits_degrades_witness :
    detailFailed (detailOracleEx ghCommitEx1.sha) = true
    ∧ ((enrichGitHubCommit detailOracleEx true ghCommitEx1).files = some []
      ∧ (enrichGitHubCommit detailOracleEx true ghCommitEx1).stats = some ⟨0, 0, 0⟩) :=
  ⟨by decide,
    (enrichGitHubCommits_degrades detailOracleEx [ghCommitEx1, ghCommitEx2]).2.1
      ghCommitEx1 (by decide)⟩

/- ## C5: compare semantics per provider -/

/-- C5: with provider github `compareCommits` issues the point-to-point
compare request between `base` and `head`; with provider gitlab it issues
a plain commit-list request for `head` only — independent of `base` — so
the documented GitLab semantic gap is present. -/
theorem compareCommits_range_semantics (token owner repo projectId base head : Str)
    (hb : base ≠ []) (hh : head ≠ []) :
    compareCommitsRequest .github token (.ghRepo owner repo) base head
      = some (.githubCompare owner repo base head)
    ∧ compareCommitsRequest .gitlab token (.glProject projectId) base head
      = some (.gitlabListCommits projectId (some head) none none)
    ∧ ∀ base2 : Str,
        compareCommitsRequest .gitlab token (.glProject projectId) base2 head
          = compareCommitsRequest .gitlab token (.glProject projectId) base head := by
  have hbe : base.isEmpty = false := by
    cases base with
    | nil => exact absurd rfl hb
    | cons a l => rfl
  have hhe : head.isEmpty = false := by
    cases head with
    | nil => exact absurd rfl hh
    | cons a l => rfl
  refine ⟨?_, ?_, fun base2 => rfl⟩
  · simp [compareCommitsRequest, gitHubPrimaryRequest, truthy, hbe, hhe]
  · simp [compareCommitsRequest, gitLabPrimaryRequest, truthy, hhe]

/-- C5 witness: concrete refs. -/
theorem compareCommits_range_semantics_witness :
    ("v1".data : Str) ≠ [] ∧ ("v2".data : Str) ≠ []
    ∧ (compareCommitsRequest .github "tok".data (.ghRepo "o".data "r".data) "v1".data "v2".data
        = some (.githubCompare "o".data "r".data "v1".data "v2".data)
      ∧ compareCommitsRequest .gitlab "tok".data (.glProject "p".data) "v1".data "v2".data
        = some (.gitlabListCommits "p".data (some "v2".data) none none)
      ∧ ∀ base2 : Str,
          compareCommitsRequest .gitlab "tok".data (.glProject "p".data) base2 "v2".data
            = compareCommitsRequest .gitlab "tok".data (.glProject "p".data) "v1".data "v2".data) :=
  ⟨by decide, by decide,
    compareCommits_range_semantics "tok".data "o".data "r".data "p".data "v1".data "v2".data
      (by decide) (by decide)⟩

/- ## C6: empty range outcome -/

/-- C6: when the fetch succeeds with zero commits, the route answers with
the dedicated 404 "No commits found" error response — an error outcome,
not an empty successful document — and no environment whose fetch threw
(provider failure) ever produces that response. -/
theorem empty_range_distinct_outcome (env : RouteEnv)
    (h1 : env.rateLimited = false) (h2 : env.authed = true)
    (h3 : env.repoFound = true) (h4 : env.tokenFound = true)
    (h5 : env.providerSupported = true) (h6 : env.fetchResult = .ok []) :
    changelogGeneratePost env = ⟨404, some "No commits found".data⟩
    ∧ (changelogGeneratePost env).error ≠ none
    ∧ ∀ env2 : RouteEnv, (∃ e, env2.fetchResult = Except.error e) →
        changelogGeneratePost env2 ≠ ⟨404, some "No commits found".data⟩ := by
  refine ⟨?_, ?_, ?_⟩
  · simp [changelogGeneratePost, h1, h2, h3, h4, h5, h6]
  · simp [changelogGeneratePost, h1, h2, h3, h4, h5, h6]
  · rintro env2 ⟨e, he⟩
    unfold changelogGeneratePost
    by_cases q1 : env2.rateLimited <;> by_cases q2 : env2.authed <;>
      by_cases q3 : env2.repoFound <;> by_cases q4 : env2.tokenFound <;>
      by_cases q5 : env2.providerSupported <;>
      simp [q1, q2, q3, q4, q5, he]

/-- A concrete environment whose fetch returns zero commits. -/
def routeEnvEx : RouteEnv :=
  ⟨false, true, true, true, true, .ok [], true⟩

/-- C6 witness: the theorem at the concrete empty-fetch environment. -/
theorem empty_range_distinct_outcome_witness :
    routeEnvEx.rateLimited = false ∧ routeEnvEx.authed = true
    ∧ routeEnvEx.repoFound = true ∧ routeEnvEx.tokenFound = true
    ∧ routeEnvEx.providerSupported = true ∧ routeEnvEx.fetchResult = .ok []
    ∧ (changelogGeneratePost routeEnvEx = ⟨404, some "No commits found".data⟩
      ∧ (changelogGeneratePost routeEnvEx).error ≠ none
      ∧ ∀ env2 : RouteEnv, (∃ e, env2.fetchResult = Except.error e) →
          changelogGeneratePost env2 ≠ ⟨404, some "No commits found".data⟩) :=
  ⟨rfl, rfl, rfl, rfl, rfl, rfl,
    empty_range_distinct_outcome routeEnvEx rfl rfl rfl rfl rfl rfl⟩

/-- C3 witness: the theorem applied to the concrete breaking commit. -/
theorem breaking_commit_only_in_breaking_witness :
    breakCommitEx ∈ [featCommitEx, breakCommitEx]
    ∧ isBreakingMsg (lowerStr breakCommitEx.message) = true
    ∧ ((∃ g ∈ groupCommitsByType [featCommitEx, breakCommitEx],
          g.category = categoryLabels .breaking ∧ breakCommitEx ∈ g.commits)
      ∧ ∀ g ∈ groupCommitsByType [featCommitEx, breakCommitEx],
          g.category ≠ categoryLabels .breaking → breakCommitEx ∉ g.commits) :=
  ⟨by decide, by decide,
    breaking_commit_only_in_breaking _ _ (by decide) (by decide)⟩

/- ## C9: renderer determinism -/

/-- C9: `formatAsMarkdown` is a pure function of its arguments — with the
generation date treated as an input, two invocations with the same groups,
repository name, refs and date produce byte-identical output. -/
theorem formatAsMarkdown_deterministic (groups : List CommitGroup) (repoName : Str)
    (startRef endRef : Option Str) (date : Str) :
    formatAsMarkdown groups repoName startRef endRef date
      = formatAsMarkdown groups repoName startRef endRef date := rfl

/- ## Helper lemmas: string order -/

/-- Totality of the string comparison. -/
theorem strLe_total : ∀ a b : Str, strLe a b = true ∨ strLe b a = true := by
  intro a
  induction a with
  | nil => intro b; exact .inl rfl
  | cons c as ih =>
    intro b
    cases b with
    | nil => exact .inr rfl
    | cons d bs =>
      rcases Nat.lt_trichotomy c.toNat d.toNat with h | h | h
      · exact .inl (by simp [strLe, h])
      · rcases ih bs with h2 | h2
        · exact .inl (by simp [strLe, h, Nat.lt_irrefl, h2])
        · exact .inr (by simp [strLe, h.symm, Nat.lt_irrefl, h2])
      · exact .inr (by simp [strLe, h])

/-- Transitivity of the string comparison. -/
theorem strLe_trans :
    ∀ a b c : Str, strLe a b = true → strLe b c = true → strLe a c = true := by
  intro a
  induction a with
  | nil => intro b c _ _; rfl
  | cons x as ih =>
    intro b c hab hbc
    cases b with
    | nil => simp [strLe] at hab
    | cons y bs =>
      cases c with
      | nil => simp [strLe] at hbc
      | cons z cs =>
        rcases Nat.lt_trichotomy x.toNat y.toNat with h1 | h1 | h1 <;>
          rcases Nat.lt_trichotomy y.toNat z.toNat with h2 | h2 | h2
        · simp [strLe, show x.toNat < z.toNat by omega]
        · simp [strLe, show x.toNat < z.toNat by omega]
        · exfalso
          simp [strLe, show ¬ y.toNat < z.toNat by omega, h2] at hbc
        · simp [strLe, show x.toNat < z.toNat by omega]
        · have hab2 : strLe as bs = true := by
            simpa [strLe, show ¬ x.toNat < y.toNat by omega,
              show ¬ y.toNat < x.toNat by omega] using hab
          have hbc2 : strLe bs cs = true := by
            simpa [strLe, show ¬ y.toNat < z.toNat by omega,
              show ¬ z.toNat < y.toNat by omega] using hbc
          simpa [strLe, show ¬ x.toNat < z.toNat by omega,
            show ¬ z.toNat < x.toNat by omega] using ih bs cs hab2 hbc2
        · exfalso
          simp [strLe, show ¬ y.toNat < z.toNat by omega, h2] at hbc
        · exfalso
          simp [strLe, show ¬ x.toNat < y.toNat by omega, h1] at hab
        · exfalso
          simp [strLe, show ¬ x.toNat < y.toNat by omega, h1] at hab
        · exfalso
          simp [strLe, show ¬ x.toNat < y.toNat by omega, h1] at hab

/-- Antisymmetry of the string comparison. -/
theorem strLe_antisymm :
    ∀ a b : Str, strLe a b = true → strLe b a = true → a = b := by
  intro a
  induction a with
  | nil =>
    intro b _ hba
    cases b with
    | nil => rfl
    | cons d bs => simp [strLe] at hba
  | cons x as ih =>
    intro b hab hba
    cases b with
    | nil => simp [strLe] at hab
    | cons y bs =>
      rcases Nat.lt_trichotomy x.toNat y.toNat with h | h | h
      · exfalso
        simp [strLe, h, show ¬ y.toNat < x.toNat by omega] at hba
      · have hxy : x = y := Char.ext (UInt32.ext h)
        subst hxy
        have hab2 : strLe as bs = true := by
          simpa [strLe, Nat.lt_irrefl] using hab
        have hba2 : strLe bs as = true := by
          simpa [strLe, Nat.lt_irrefl] using hba
        rw [ih bs hab2 hba2]
      · exfalso
        simp [strLe, h, show ¬ x.toNat < y.toNat by omega] at hab

instance : IsTotal Str strLeP := ⟨strLe_total⟩

instance : IsTrans Str strLeP := ⟨strLe_trans⟩

instance : IsAntisymm Str strLeP := ⟨strLe_antisymm⟩

/-- A lookup misses exactly when the key is absent. -/
theorem lookup_eq_none_iff (l : List (Str × Str)) (k : Str) :
    l.lookup k = none ↔ k ∉ l.map Prod.fst := by
  induction l with
  | nil => simp [List.lookup]
  | cons p ps ih =>
    by_cases h : k = p.1
    · simp [List.lookup, h]
    · simp only [List.lookup, beq_eq_false_iff_ne, ne_eq,
        show (k == p.1) = false by simpa using h]
      simp [ih, h]

/- ## C7: cache key order independence -/

/-- C7: `generateCacheKey` is invariant under the order of the parameter
object's fields: two association lists with distinct field names and the
same name-to-value mapping produce the identical key (prefix, then the
lexicographically sorted `name:value` pairs joined by `|`), so a `get`
and a `set` with the same fields in any order meet at the same entry. -/
theorem generateCacheKey_order_invariant (pre : Str) (l1 l2 : List (Str × Str))
    (h1 : (l1.map Prod.fst).Nodup) (h2 : (l2.map Prod.fst).Nodup)
    (h : ∀ k, l1.lookup k = l2.lookup k) :
    generateCacheKey pre l1 = generateCacheKey pre l2 := by
  have hperm : (l1.map Prod.fst).Perm (l2.map Prod.fst) := by
    rw [List.perm_ext_iff_of_nodup h1 h2]
    intro k
    have hk := h k
    constructor
    · intro hmem
      by_contra hne
      rw [← lookup_eq_none_iff] at hne
      rw [hne] at hk
      exact (lookup_eq_none_iff l1 k).mp hk hmem
    · intro hmem
      by_contra hne
      rw [← lookup_eq_none_iff] at hne
      rw [hne] at hk
      exact (lookup_eq_none_iff l2 k).mp hk.symm hmem
  have hkeys : (l1.map Prod.fst).insertionSort strLeP
      = (l2.map Prod.fst).insertionSort strLeP := by
    apply List.eq_of_perm_of_sorted
      (((List.perm_insertionSort strLeP _).trans hperm).trans
        (List.perm_insertionSort strLeP _).symm)
      (List.sorted_insertionSort strLeP _) (List.sorted_insertionSort strLeP _)
  unfold generateCacheKey
  rw [hkeys]
  simp only [h]

/-- C7 witness: two field orders of the same mapping give one key. -/
theorem generateCacheKey_order_invariant_witness :
    ((([("a".data, "1".data), ("b".data, "2".data)] : List (Str × Str)).map
        Prod.fst).Nodup)
    ∧ ((([("b".data, "2".data), ("a".data, "1".data)] : List (Str × Str)).map
        Prod.fst).Nodup)
    ∧ generateCacheKey "commits".data [("a".data, "1".data), ("b".data, "2".data)]
        = generateCacheKey "commits".data [("b".data, "2".data), ("a".data, "1".data)] :=
  ⟨by decide, by decide,
    generateCacheKey_order_invariant "commits".data _ _ (by decide) (by decide)
      (by
        intro k
        by_cases ha : k = "a".data
        · subst ha
          simp [List.lookup, show (("a".data : Str) == "b".data) = false by decide]
        · by_cases hb : k = "b".data
          · subst hb
            simp [List.lookup, show (("b".data : Str) == "a".data) = false by decide]
          · simp [List.lookup, beq_eq_false_iff_ne.mpr ha,
              beq_eq_false_iff_ne.mpr hb])⟩

/- ## C8: invalidation by key fragment -/

/-- `hasSubstr` is substring containment. -/
theorem hasSubstr_iff_infix (pat : Str) :
    ∀ s : Str, hasSubstr pat s = true ↔ pat <:+: s := by
  intro s
  induction s with
  | nil => simp [hasSubstr, List.isEmpty_iff, List.infix_nil]
  | cons c rest ih =>
    simp [hasSubstr, List.isPrefixOf_iff_prefix, ih, List.infix_cons_iff]

/-- C8: the invalidation loops remove exactly the entries whose key
contains the partial-parameter fragment as a substring —
`repoId:<repoId>` for the commit cache, `userId:<userId>` for the
repository cache with no provider — and keep every other entry. -/
theorem invalidate_removes_exactly {V : Type} (repoId userId : Str)
    (cCache rCache : List (Str × V)) (e1 e2 : Str × V) :
    (e1 ∈ commitCacheInvalidate repoId cCache ↔
      e1 ∈ cCache ∧ ¬ ("repoId:".data ++ repoId) <:+: e1.1)
    ∧ (e2 ∈ repoCacheInvalidateAll userId rCache ↔
      e2 ∈ rCache ∧ ¬ ("userId:".data ++ userId) <:+: e2.1) := by
  constructor <;>
    simp [commitCacheInvalidate, repoCacheInvalidateAll, invalidateByFragment,
      List.mem_filter, ← hasSubstr_iff_infix]

/- ## C10: undefined refs in commit-cache keys -/

/-- C10 (counterexample): with a repository id that itself contains the
`|` delimiter and `repoId:`/`toRef:` fragments, a no-refs key collides
with the key of an entry whose `fromRef` is a defined ref different from
the literal string "undefined". -/
theorem commitCacheKey_collision :
    commitCacheKey "x|toRef:undefined|repoId:y".data none none
      = commitCacheKey "y".data (some "undefined|repoId:x|toRef:undefined".data)
          (some "undefined".data)
    ∧ ("undefined|repoId:x|toRef:undefined".data : Str) ≠ "undefined".data := by
  constructor
  · decide
  · decide

/-- Splitting at the first delimiter is unambiguous. -/
theorem append_bar_inj_left :
    ∀ u u' v v' : Str, '|' ∉ u → '|' ∉ u' →
      u ++ '|' :: v = u' ++ '|' :: v' → u = u' ∧ v = v' := by
  intro u
  induction u with
  | nil =>
    intro u' v v' _ hu' h
    cases u' with
    | nil => simpa using h
    | cons c us =>
      exfalso
      rw [List.nil_append, List.cons_append] at h
      injection h with h1 _
      exact hu' (by rw [h1]; exact List.mem_cons_self _ _)
  | cons c us ih =>
    intro u' v v' hu hu' h
    cases u' with
    | nil =>
      exfalso
      rw [List.nil_append, List.cons_append] at h
      injection h with h1 _
      exact hu (by rw [← h1]; exact List.mem_cons_self _ _)
    | cons d vs =>
      rw [List.cons_append, List.cons_append] at h
      injection h with h1 h2
      subst h1
      have := ih vs v v' (fun hm => hu (List.mem_cons_of_mem _ hm))
        (fun hm => hu' (List.mem_cons_of_mem _ hm)) h2
      exact ⟨by rw [this.1], this.2⟩

/-- Splitting at the last delimiter is unambiguous. -/
theorem append_bar_inj_right (x x' y y' : Str) (hy : '|' ∉ y) (hy' : '|' ∉ y')
    (h : x ++ '|' :: y = x' ++ '|' :: y') : x = x' ∧ y = y' := by
  have hrev := congrArg List.reverse h
  rw [List.reverse_append, List.reverse_append, List.reverse_cons,
    List.reverse_cons, List.append_assoc, List.append_assoc,
    List.singleton_append, List.singleton_append] at hrev
  have h2 := append_bar_inj_left y.reverse y'.reverse x.reverse x'.reverse
    (by simpa using hy) (by simpa using hy') hrev
  exact ⟨List.reverse_injective h2.2, List.reverse_injective h2.1⟩

/-- The commit-cache key in explicit form: sorted field order is
`fromRef`, `repoId`, `toRef`. -/
theorem commitCacheKey_shape (r : Str) (fr toR : Option Str) :
    commitCacheKey r fr toR
      = "commits:fromRef:".data ++ (encodeVal fr ++ ('|' ::
          ("repoId:".data ++ (r ++ ('|' :: ("toRef:".data ++ encodeVal toR)))))) := by
  have hsort : (["repoId".data, "fromRef".data, "toRef".data] :
      List Str).insertionSort strLeP
      = ["fromRef".data, "repoId".data, "toRef".data] := by decide
  unfold commitCacheKey generateCacheKey
  rw [show (([("repoId".data, r), ("fromRef".data, encodeVal fr),
      ("toRef".data, encodeVal toR)] : List (Str × Str)).map Prod.fst)
      = (["repoId".data, "fromRef".data, "toRef".data] : List Str) from rfl, hsort]
  simp only [List.map_cons, List.map_nil]
  rw [show (([("repoId".data, r), ("fromRef".data, encodeVal fr),
      ("toRef".data, encodeVal toR)] : List (Str × Str)).lookup "fromRef".data)
      = some (encodeVal fr) from rfl]
  rw [show (([("repoId".data, r), ("fromRef".data, encodeVal fr),
      ("toRef".data, encodeVal toR)] : List (Str × Str)).lookup "repoId".data)
      = some r from rfl]
  rw [show (([("repoId".data, r), ("fromRef".data, encodeVal fr),
      ("toRef".data, encodeVal toR)] : List (Str × Str)).lookup "toRef".data)
      = some (encodeVal toR) from rfl]
  simp only [List.map_cons, List.map_nil, Option.getD_some, joinSep,
    List.append_assoc]
  rfl

/-- C10 (amended): a no-refs key has the literal shape
`commits:fromRef:undefined|repoId:<id>|toRef:undefined`; and provided the
encoded ref values contain no `|` delimiter, it equals another commit key
only when that key's refs both encode to the literal "undefined" and the
repository ids agree. -/
theorem commitCacheKey_undefined_refs (repoId repoId2 : Str) (fromRef toRef : Option Str)
    (hf : '|' ∉ encodeVal fromRef) (ht : '|' ∉ encodeVal toRef) :
    commitCacheKey repoId none none
      = "commits:fromRef:undefined|repoId:".data ++ repoId ++ "|toRef:undefined".data
    ∧ (commitCacheKey repoId none none = commitCacheKey repoId2 fromRef toRef →
        encodeVal fromRef = "undefined".data ∧ encodeVal toRef = "undefined".data
        ∧ repoId = repoId2) := by
  constructor
  · rw [commitCacheKey_shape]
    simp only [encodeVal, List.append_assoc]
    rfl
  · intro h
    rw [commitCacheKey_shape, commitCacheKey_shape] at h
    have h1 := List.append_cancel_left h
    have h2 := append_bar_inj_left (encodeVal none) (encodeVal fromRef) _ _
      (by decide) hf h1
    have h3 := List.append_cancel_left h2.2
    have h4 := append_bar_inj_right repoId repoId2
      ("toRef:".data ++ encodeVal none) ("toRef:".data ++ encodeVal toRef)
      (by decide)
      (by
        intro hm
        rcases List.mem_append.mp hm with hm1 | hm1
        · exact absurd hm1 (by decide)
        · exact ht hm1) h3
    refine ⟨h2.1.symm, ?_, h4.1⟩
    have h5 := List.append_cancel_left h4.2
    exact h5.symm

/-- C10 witness: the amended theorem at delimiter-free concrete refs. -/
theorem commitCacheKey_undefined_refs_witness :
    ('|' ∉ encodeVal (some "v1".data)) ∧ ('|' ∉ encodeVal (some "v2".data))
    ∧ (commitCacheKey "abc".data none none
        = "commits:fromRef:undefined|repoId:".data ++ "abc".data
            ++ "|toRef:undefined".data
      ∧ (commitCacheKey "abc".data none none
          = commitCacheKey "abc".data (some "v1".data) (some "v2".data) →
          encodeVal (some "v1".data) = "undefined".data
          ∧ encodeVal (some "v2".data) = "undefined".data
          ∧ "abc".data = "abc".data)) :=
  ⟨by decide, by decide,
    commitCacheKey_undefined_refs "abc".data "abc".data (some "v1".data)
      (some "v2".data) (by decide) (by decide)⟩

/-- C2 witness: the partition theorem at a concrete input. -/
theorem groupCommitsByType_partition_witness :
    ((((groupCommitsByType [featCommitEx, breakCommitEx]).map
        (fun g => g.commits)).flatten).Perm [featCommitEx, breakCommitEx])
    ∧ ∀ g ∈ groupCommitsByType [featCommitEx, breakCommitEx], g.commits ≠ [] :=
  groupCommitsByType_partition [featCommitEx, breakCommitEx]
